import Mathlib

/-!
Verification of the extraction-and-type-resolution compiler of the
`ts-api-decorators` repository against its natural-language specification.

The development shallowly embeds the repository's data model and operations:

* `src/packages/ts-api-decorators/src/apiManagement/ApiDefinition.ts`:
  `ApiMethod`, `ApiParamType`, `IApiDefinition`.
* `src/src/decorators/API.ts`: the runtime method decorators
  `ApiGetMethod`/`ApiPostMethod`/`ApiPutMethod`/`ApiDeleteMethod` and
  `wrapApiMethod`, together with the `reflect-metadata` store they write to.
* `src/packages/ts-api-decorators/src/decorators/QueryParams.ts` (provided
  unnamed): `QueryParamDecorator`, `GetQueryParamDecorator` and the
  `QueryParams` decorator definitions with their `allowableTypes`.
* `src/packages/ts-api-decorators/src/transformer/treeTransformer/DecoratorDefinition.ts`:
  the dependency-declaration enums.
* `src/packages/ts-api-decorators-azure-function/src/commands/GenerateCommand.ts`
  (provided unnamed): the function route-name derivation loop of
  `AzureFunctionGenerateCommand.runCommand`.

The compiler core itself (Type Resolver, Declaration Walker, Metadata &
Dependency Linker, Handler Assembler) is not part of the provided sources;
those operations are modelled from the specification and are marked
`Modelled from the spec:` in their doc comments.
-/

/-- HTTP verbs, from `ApiDefinition.ts` (`export const enum ApiMethod`). -/
inductive ApiMethod where
  | GET
  | POST
  | PUT
  | DELETE
deriving DecidableEq, Repr

/-- Parameter binding kinds, from `ApiDefinition.ts` (`export const enum ApiParamType`). -/
inductive ApiParamType where
  | Body
  | Query
  | Path
  | Header
  | Callback
  | Transport
  | Dependency
deriving DecidableEq, Repr

/-- Primitive kinds of the normalized type model (spec §3: `primitive`
{string, number, boolean, date}). -/
inductive PrimitiveKind where
  | string
  | number
  | boolean
  | date
deriving DecidableEq, Repr

/-- Modelled from the spec: a reference to a type as supplied by the host
compiler's type-checking facility (spec §4.1) — not present in the provided
sources. A `named` reference points at a declared object type by its
identity key (fully qualified declaration name). -/
inductive TypeRef where
  | prim : PrimitiveKind → TypeRef
  | array : TypeRef → TypeRef
  | named : String → TypeRef
  | union : List TypeRef → TypeRef
deriving Repr

/-- Modelled from the spec: the normalized `TypeDescriptor` tree (spec §3).
`object` carries the stable identity key and the ordered field list (name,
optionality, field descriptor); `rawRef` is the spec's "opaque" kind (raw
identifier, resolution deliberately not pursued); `recursiveReference` is
the back-pointer emitted at the point of re-entry into a type that is
already being expanded. -/
inductive TypeDescriptor where
  | primitive : PrimitiveKind → TypeDescriptor
  | array : TypeDescriptor → TypeDescriptor
  | object : String → List (String × Bool × TypeDescriptor) → TypeDescriptor
  | union : List TypeDescriptor → TypeDescriptor
  | recursiveReference : String → TypeDescriptor
  | rawRef : String → TypeDescriptor
deriving Repr

mutual

/-- Structural decidable equality for `TypeDescriptor` (the derive handler
does not support this nested inductive). -/
def TypeDescriptor.deq : (a b : TypeDescriptor) → Decidable (a = b)
  | .primitive a, .primitive b =>
    match decEq a b with
    | isTrue h => isTrue (by rw [h])
    | isFalse h => isFalse (by intro hc; cases hc; exact h rfl)
  | .array a, .array b =>
    match TypeDescriptor.deq a b with
    | isTrue h => isTrue (by rw [h])
    | isFalse h => isFalse (by intro hc; cases hc; exact h rfl)
  | .object n1 f1, .object n2 f2 =>
    match decEq n1 n2, TypeDescriptor.deqFields f1 f2 with
    | isTrue h1, isTrue h2 => isTrue (by rw [h1, h2])
    | isFalse h1, _ => isFalse (by intro hc; cases hc; exact h1 rfl)
    | _, isFalse h2 => isFalse (by intro hc; cases hc; exact h2 rfl)
  | .union m1, .union m2 =>
    match TypeDescriptor.deqList m1 m2 with
    | isTrue h => isTrue (by rw [h])
    | isFalse h => isFalse (by intro hc; cases hc; exact h rfl)
  | .recursiveReference a, .recursiveReference b =>
    match decEq a b with
    | isTrue h => isTrue (by rw [h])
    | isFalse h => isFalse (by intro hc; cases hc; exact h rfl)
  | .rawRef a, .rawRef b =>
    match decEq a b with
    | isTrue h => isTrue (by rw [h])
    | isFalse h => isFalse (by intro hc; cases hc; exact h rfl)
  | .primitive _, .array _ => isFalse (by intro h; cases h)
  | .primitive _, .object _ _ => isFalse (by intro h; cases h)
  | .primitive _, .union _ => isFalse (by intro h; cases h)
  | .primitive _, .recursiveReference _ => isFalse (by intro h; cases h)
  | .primitive _, .rawRef _ => isFalse (by intro h; cases h)
  | .array _, .primitive _ => isFalse (by intro h; cases h)
  | .array _, .object _ _ => isFalse (by intro h; cases h)
  | .array _, .union _ => isFalse (by intro h; cases h)
  | .array _, .recursiveReference _ => isFalse (by intro h; cases h)
  | .array _, .rawRef _ => isFalse (by intro h; cases h)
  | .object _ _, .primitive _ => isFalse (by intro h; cases h)
  | .object _ _, .array _ => isFalse (by intro h; cases h)
  | .object _ _, .union _ => isFalse (by intro h; cases h)
  | .object _ _, .recursiveReference _ => isFalse (by intro h; cases h)
  | .object _ _, .rawRef _ => isFalse (by intro h; cases h)
  | .union _, .primitive _ => isFalse (by intro h; cases h)
  | .union _, .array _ => isFalse (by intro h; cases h)
  | .union _, .object _ _ => isFalse (by intro h; cases h)
  | .union _, .recursiveReference _ => isFalse (by intro h; cases h)
  | .union _, .rawRef _ => isFalse (by intro h; cases h)
  | .recursiveReference _, .primitive _ => isFalse (by intro h; cases h)
  | .recursiveReference _, .array _ => isFalse (by intro h; cases h)
  | .recursiveReference _, .object _ _ => isFalse (by intro h; cases h)
  | .recursiveReference _, .union _ => isFalse (by intro h; cases h)
  | .recursiveReference _, .rawRef _ => isFalse (by intro h; cases h)
  | .rawRef _, .primitive _ => isFalse (by intro h; cases h)
  | .rawRef _, .array _ => isFalse (by intro h; cases h)
  | .rawRef _, .object _ _ => isFalse (by intro h; cases h)
  | .rawRef _, .union _ => isFalse (by intro h; cases h)
  | .rawRef _, .recursiveReference _ => isFalse (by intro h; cases h)

/-- Decidable equality for field lists of `TypeDescriptor.object`. -/
def TypeDescriptor.deqFields : (a b : List (String × Bool × TypeDescriptor)) → Decidable (a = b)
  | [], [] => isTrue rfl
  | [], _ :: _ => isFalse (by intro h; cases h)
  | _ :: _, [] => isFalse (by intro h; cases h)
  | (n1, o1, t1) :: xs, (n2, o2, t2) :: ys =>
    match decEq n1 n2, decEq o1 o2, TypeDescriptor.deq t1 t2, TypeDescriptor.deqFields xs ys with
    | isTrue h1, isTrue h2, isTrue h3, isTrue h4 => isTrue (by rw [h1, h2, h3, h4])
    | isFalse h1, _, _, _ => isFalse (by intro hc; cases hc; exact h1 rfl)
    | _, isFalse h2, _, _ => isFalse (by intro hc; cases hc; exact h2 rfl)
    | _, _, isFalse h3, _ => isFalse (by intro hc; cases hc; exact h3 rfl)
    | _, _, _, isFalse h4 => isFalse (by intro hc; cases hc; exact h4 rfl)

/-- Decidable equality for member lists of `TypeDescriptor.union`. -/
def TypeDescriptor.deqList : (a b : List TypeDescriptor) → Decidable (a = b)
  | [], [] => isTrue rfl
  | [], _ :: _ => isFalse (by intro h; cases h)
  | _ :: _, [] => isFalse (by intro h; cases h)
  | x :: xs, y :: ys =>
    match TypeDescriptor.deq x y, TypeDescriptor.deqList xs ys with
    | isTrue h1, isTrue h2 => isTrue (by rw [h1, h2])
    | isFalse h1, _ => isFalse (by intro hc; cases hc; exact h1 rfl)
    | _, isFalse h2 => isFalse (by intro hc; cases hc; exact h2 rfl)

end

instance : DecidableEq TypeDescriptor := TypeDescriptor.deq

mutual

/-- Number of `recursiveReference` nodes in a descriptor tree. -/
def countRecRef : TypeDescriptor → Nat
  | .primitive _ => 0
  | .array t => countRecRef t
  | .object _ fields => countRecRefFields fields
  | .union ms => countRecRefList ms
  | .recursiveReference _ => 1
  | .rawRef _ => 0

/-- Number of `recursiveReference` nodes below a field list. -/
def countRecRefFields : List (String × Bool × TypeDescriptor) → Nat
  | [] => 0
  | (_, _, t) :: rest => countRecRef t + countRecRefFields rest

/-- Number of `recursiveReference` nodes below a descriptor list. -/
def countRecRefList : List TypeDescriptor → Nat
  | [] => 0
  | t :: rest => countRecRef t + countRecRefList rest

end

/-- Field declaration of an object type: name, optional flag, field type. -/
abbrev FieldDecl := String × Bool × TypeRef

/-- Modelled from the spec: the compiled unit's type declarations, keyed by
identity key (spec §3: "fully qualified declaration name"). -/
abbrev TypeEnv := List (String × List FieldDecl)

/-- Look up a declared object type by its identity key. -/
def lookupDecl (env : TypeEnv) (n : String) : Option (List FieldDecl) :=
  (env.find? (fun e => e.fst == n)).map (fun e => e.snd)

/-- Modelled from the spec: the Type Resolver's
`resolve(typeReference, resolutionContext)` (spec §4.1) — the resolver
implementation is not part of the provided sources. It maintains a
`resolutionContext` (`ctx`) of identity keys currently being expanded; on
entry to a named type whose identity key is already in the context it
returns a `recursiveReference` immediately. Primitive types map directly,
array types resolve the element and wrap, object-like types enumerate their
fields in declaration order, union types resolve each member, and a named
type with no declaration is kept as a raw (opaque) identifier. -/
def resolve (env : TypeEnv) (ctx : List String) : TypeRef → TypeDescriptor
  | .prim p => .primitive p
  | .array t => .array (resolve env ctx t)
  | .union ts => .union ((ts.attach.map (fun x => resolve env ctx x.val)).eraseDups)
  | .named n =>
    if n ∈ ctx then .recursiveReference n
    else
      match hfind : lookupDecl env n with
      | none => .rawRef n
      | some fields =>
        .object n (fields.attach.map
          (fun x => (x.val.fst, x.val.snd.fst, resolve env (n :: ctx) x.val.snd.snd)))
termination_by t => (((env.map Prod.fst).toFinset \ ctx.toFinset).card, sizeOf t)
decreasing_by
  · apply Prod.Lex.right
    simp [TypeRef.array.sizeOf_spec]
  · apply Prod.Lex.right
    have hx := x.property
    have h1 : sizeOf x.val < sizeOf ts := List.sizeOf_lt_of_mem hx
    have h2 : sizeOf (TypeRef.union ts) = 1 + sizeOf ts := by
      simp [TypeRef.union.sizeOf_spec]
    omega
  · apply Prod.Lex.left
    have hmem : n ∈ env.map Prod.fst := by
      rcases h1 : env.find? (fun e => e.fst == n) with _ | e
      · simp [lookupDecl, h1] at hfind
      · have he := List.find?_some h1
        have hm := List.mem_of_find?_eq_some h1
        simp at he
        subst he
        exact List.mem_map_of_mem Prod.fst hm
    have hnotin : n ∉ ctx := by assumption
    have hsub : (env.map Prod.fst).toFinset \ (n :: ctx).toFinset
        = ((env.map Prod.fst).toFinset \ ctx.toFinset).erase n := by
      ext a
      simp [Finset.mem_sdiff, Finset.mem_erase]
      tauto
    rw [hsub]
    apply Finset.card_erase_lt_of_mem
    exact Finset.mem_sdiff.mpr ⟨List.mem_toFinset.mpr hmem,
      fun hc => hnotin (List.mem_toFinset.mp hc)⟩

/-- A directly self-referential object type, as in the spec's testable
property §8: a type with a field of its own type
(`interface ISelfRef { next?: ISelfRef; value: string }`). -/
def selfRefEnv : TypeEnv :=
  [("ISelfRef", [("next", true, .named "ISelfRef"), ("value", false, .prim .string)])]

/-- A transitively self-referential pair of object types
(`interface IA { b: IB }`, `interface IB { a: IA }`). -/
def mutualRefEnv : TypeEnv :=
  [("IA", [("b", false, .named "IB")]),
   ("IB", [("a", false, .named "IA")])]

/-- Modelled from the spec: a field of a generic (parameterized) base shape —
either a reference to one of the shape's type parameters (by position) or a
type that does not involve the parameters. -/
inductive GFieldType where
  | param : Nat → GFieldType
  | concrete : TypeDescriptor → GFieldType
deriving Repr

/-- Modelled from the spec: the declared base shape of a generic type
(spec §4.1: "Generic/parameterized types resolve the base shape once per
distinct tuple of type arguments"). `name` is the base identity key. -/
structure GenericShape where
  name : String
  fields : List (String × Bool × GFieldType)

/-- Modelled from the spec: instantiating a generic base shape with a tuple
of resolved type arguments produces an object descriptor whose fields have
the parameters substituted by the corresponding arguments. -/
def instantiateGeneric (shape : GenericShape) (args : List TypeDescriptor) : TypeDescriptor :=
  .object shape.name (shape.fields.map (fun f =>
    (f.fst, f.snd.fst,
      match f.snd.snd with
      | .param i => args.getD i (.rawRef "unresolved-type-parameter")
      | .concrete d => d)))

/-- Modelled from the spec: the process-wide descriptor cache, "keyed by
identity+type-argument tuple" (spec §4.1, glossary "Descriptor cache"). -/
abbrev DescriptorCache := List ((String × List TypeDescriptor) × TypeDescriptor)

/-- Cache lookup by exact key (base identity key plus the full tuple of
type arguments). -/
def lookupCache : DescriptorCache → String × List TypeDescriptor → Option TypeDescriptor
  | [], _ => none
  | e :: rest, k => if e.fst = k then some e.snd else lookupCache rest k

/-- Result of resolving a generic instantiation: the descriptor, the cache
after the call, and whether the call was served from the cache. -/
structure ResolveGenericResult where
  descriptor : TypeDescriptor
  cache : DescriptorCache
  cacheHit : Bool
deriving Repr, DecidableEq

/-- Modelled from the spec: resolution of a generic type instantiation
through the memoizing descriptor cache (spec §4.1) — the resolver
implementation is not part of the provided sources. The cache is consulted
with the key (base identity, full type-argument tuple); on a miss the base
shape is instantiated with the arguments and the result is cached under
that key. -/
def resolveGeneric (shape : GenericShape) (args : List TypeDescriptor)
    (cache : DescriptorCache) : ResolveGenericResult :=
  match lookupCache cache (shape.name, args) with
  | some d => ⟨d, cache, true⟩
  | none =>
    let d := instantiateGeneric shape args
    ⟨d, ((shape.name, args), d) :: cache, false⟩

/-- Whether a descriptor is object-shaped. -/
def isObjectShaped : TypeDescriptor → Bool
  | .object _ _ => true
  | _ => false

/-- The generic wrapper shape of the type-serializer test source
`parameterized-types.ts`: `interface IResponse<P extends object> { response: P }`. -/
def iresponseShape : GenericShape :=
  { name := "IResponse", fields := [("response", false, .param 0)] }

/-- Descriptor of `interface IResponseBody { greeting: string }` from
`parameterized-types.ts`. -/
def iresponseBodyDesc : TypeDescriptor :=
  .object "IResponseBody" [("greeting", false, .primitive .string)]

/-- Shape of one argument accepted by a query-parameter decorator, from the
`IQueryParamDecoratorDefinition` uses in `QueryParams.ts`: a semantic type
tag and an optional flag. -/
structure IQueryParamArgDef where
  type : String
  optional : Bool
deriving DecidableEq, Repr

/-- Decorator definition registered for a query-parameter decorator, from
`QueryParams.ts`: the allowable parameter types and the argument shapes. -/
structure IQueryParamDecoratorDefinition where
  allowableTypes : List String
  arguments : List IQueryParamArgDef
deriving DecidableEq, Repr

/-- Decorator definition of `QueryParams.ApiQueryParamString`
(`QueryParams.ts`): `allowableTypes: ['string']`, one optional `regexp`
argument. -/
def apiQueryParamStringDef : IQueryParamDecoratorDefinition :=
  { allowableTypes := ["string"],
    arguments := [{ type := "regexp", optional := true }] }

/-- Decorator definition of `QueryParams.ApiQueryParamNumber`
(`QueryParams.ts`): `allowableTypes: ['number']`, optional `numberMin` and
`numberMax` arguments. -/
def apiQueryParamNumberDef : IQueryParamDecoratorDefinition :=
  { allowableTypes := ["number"],
    arguments := [{ type := "numberMin", optional := true },
                  { type := "numberMax", optional := true }] }

/-- Decorator definition of `QueryParams.ApiQueryParam` (`QueryParams.ts`):
`allowableTypes: ['string', 'number', 'date']`, one optional
`validationFunc` argument. -/
def apiQueryParamDef : IQueryParamDecoratorDefinition :=
  { allowableTypes := ["string", "number", "date"],
    arguments := [{ type := "validationFunc", optional := true }] }

/-- Name of the primitive type a resolved descriptor stands for, used when
matching a descriptor against the type-name restrictions a parameter
decorator declares (`allowableTypes` in `QueryParams.ts`,
`parameterTypeRestrictions` in `DecoratorDefinition.ts`). -/
def descriptorTypeName : TypeDescriptor → String
  | .primitive .string => "string"
  | .primitive .number => "number"
  | .primitive .boolean => "boolean"
  | .primitive .date => "date"
  | .array _ => "array"
  | .object _ _ => "object"
  | .union _ => "union"
  | .recursiveReference _ => "recursive-reference"
  | .rawRef _ => "raw"

/-- Failure naming the parameter declaration whose resolved type matched
none of the declared type restrictions. -/
inductive TypeRestrictionError where
  | typeRestrictionError : String → TypeRestrictionError
deriving DecidableEq, Repr

/-- Modelled from the spec: the Declaration Walker's type-restriction check
(spec §4.3 step 2) — the Walker implementation is not part of the provided
sources: "if a parameter annotation declares `parameterTypeRestrictions`,
verify the resolved descriptor matches at least one restriction, else fail
with `TypeRestrictionError` naming the declaration". -/
def validateParameterTypeRestrictions (paramName : String)
    (restrictions : Option (List String)) (resolved : TypeDescriptor) :
    Except TypeRestrictionError Unit :=
  match restrictions with
  | none => Except.ok ()
  | some rs =>
    if rs.any (fun r => r == descriptorTypeName resolved) then Except.ok ()
    else Except.error (.typeRestrictionError paramName)

/-- Literal default value attached to a parameter declaration. -/
inductive ParamDefaultValue where
  | numberValue : Int → ParamDefaultValue
  | stringValue : String → ParamDefaultValue
  | booleanValue : Bool → ParamDefaultValue
deriving DecidableEq, Repr

/-- Modelled from the spec: a parameter declaration as seen by the
Declaration Walker — name, declared type, whether the declaration carries an
optional marker, its literal default value if any, and the binding kind of
the parameter decorator attached to it. -/
structure ParamDecl where
  name : String
  declaredType : TypeRef
  optionalMarker : Bool
  defaultValue : Option ParamDefaultValue
  binding : ApiParamType

/-- Modelled from the spec: a method declaration annotated with an HTTP verb
and route, carrying its parameter declarations in declaration order. -/
structure ApiMethodDecl where
  verb : ApiMethod
  route : String
  params : List ParamDecl
  returnType : TypeRef

/-- One parameter binding of an `ExtractedApiDefinition` (spec §3: binding
kind, resolved descriptor, required/optional, default value). -/
structure ExtractedParamBinding where
  name : String
  binding : ApiParamType
  descriptor : TypeDescriptor
  isOptional : Bool
  defaultValue : Option ParamDefaultValue
deriving DecidableEq, Repr

/-- One extracted definition per (HTTP verb, route) pair (spec §3). -/
structure ExtractedApiDefinition where
  method : ApiMethod
  route : String
  parameters : List ExtractedParamBinding
  returnType : TypeDescriptor
deriving DecidableEq, Repr

/-- Modelled from the spec: a declaration is optional "if the declaration
marks it optional or has a default value" (spec §4.1). -/
def isOptionalParam (p : ParamDecl) : Bool :=
  p.optionalMarker || p.defaultValue.isSome

/-- Modelled from the spec: extraction of one parameter binding — the
declared type is resolved through the Type Resolver and the binding carries
the optionality and default value of the declaration. -/
def extractParameter (env : TypeEnv) (p : ParamDecl) : ExtractedParamBinding :=
  { name := p.name,
    binding := p.binding,
    descriptor := resolve env [] p.declaredType,
    isOptional := isOptionalParam p,
    defaultValue := p.defaultValue }

/-- Modelled from the spec: extraction of one annotated method into an
`ExtractedApiDefinition`, with parameter bindings in declaration order
(spec §4.3, §4.5) — the Walker implementation is not part of the provided
sources. -/
def extractApiMethod (env : TypeEnv) (m : ApiMethodDecl) : ExtractedApiDefinition :=
  { method := m.verb,
    route := m.route,
    parameters := m.params.map (extractParameter env),
    returnType := resolve env [] m.returnType }

/-- Modelled from the spec: extraction of a class — one
`ExtractedApiDefinition` per annotated method (spec §4.3). -/
def extractClassMethods (env : TypeEnv) (methods : List ApiMethodDecl) :
    List ExtractedApiDefinition :=
  methods.map (extractApiMethod env)

/-- The scenario class of spec §8: one method annotated GET `/hello` taking
a required string-bound query parameter `name` and an optional number-bound
query parameter `times` with default value `1` (the `greet` method of the
`MyApi` test sources). -/
def greetMethodDecl : ApiMethodDecl :=
  { verb := .GET,
    route := "/hello",
    params := [
      { name := "name", declaredType := .prim .string, optionalMarker := false,
        defaultValue := none, binding := .Query },
      { name := "times", declaredType := .prim .number, optionalMarker := false,
        defaultValue := some (.numberValue 1), binding := .Query }],
    returnType := .prim .string }

/-- Modelled from the spec: result of the Declaration Walker over a compiled
unit — the successfully extracted definitions plus the diagnostics recorded
for failing declarations (spec §7). -/
structure WalkResult (α β : Type) where
  extracted : List α
  diagnostics : List β
deriving DecidableEq, Repr

/-- Modelled from the spec: the Declaration Walker's partial-failure
traversal (spec §7) — the Walker implementation is not part of the provided
sources: it "continues processing remaining declarations after recording a
diagnostic for a failing one". Each declaration is processed independently;
a success is appended to the extracted list, a failure records a diagnostic
and processing continues. -/
def walkDeclarations {δ α β : Type} (process : δ → Except β α) : List δ → WalkResult α β
  | [] => ⟨[], []⟩
  | d :: rest =>
    let r := walkDeclarations process rest
    match process d with
    | Except.ok a => ⟨a :: r.extracted, r.diagnostics⟩
    | Except.error e => ⟨r.extracted, e :: r.diagnostics⟩

/-- Diagnostic recorded for one declaration, if its processing failed. -/
def extractionDiagnosticPart {α β : Type} : Except β α → Option β
  | Except.ok _ => none
  | Except.error e => some e

/-- Modelled from the spec: "the overall compilation result reports success
only if the diagnostic list is empty" (spec §7). -/
def compilationSucceeded {α β : Type} (r : WalkResult α β) : Bool :=
  r.diagnostics.isEmpty

/-- Kind of a declared decorator dependency, from `DecoratorDefinition.ts`
(`enum DecoratorDependencyType`): on the `name` field or on the `provider`
field of the target decorator definition. -/
inductive DecoratorDependencyType where
  | NameDependency
  | ProviderDependency
deriving DecidableEq, Repr

/-- Scope of a declared decorator dependency, from `DecoratorDefinition.ts`
(`enum DecoratorDependencyLocation`): on a parent of the current decorator
or on a peer of the current decorator. -/
inductive DecoratorDependencyLocation where
  | Parent
  | Peer
deriving DecidableEq, Repr

/-- A declared decorator dependency, from `DecoratorDefinition.ts`
(`interface IDecoratorDependency`). -/
structure IDecoratorDependency where
  type : DecoratorDependencyType
  dependency : String
  location : DecoratorDependencyLocation
deriving DecidableEq, Repr

/-- The fields of a handler-tree node's matched decorator definition that
dependency resolution matches against (`magicFunctionName`, i.e. the name,
and `provider` of `IDecoratorDefinitionBase` in `DecoratorDefinition.ts`). -/
structure HandlerNodeInfo where
  name : String
  provider : String
deriving DecidableEq, Repr

/-- Whether a node satisfies a declared dependency: a `NameDependency`
matches the node's name, a `ProviderDependency` matches the node's
provider (`DecoratorDefinition.ts`). -/
def dependencySatisfied (dep : IDecoratorDependency) (n : HandlerNodeInfo) : Bool :=
  match dep.type with
  | .NameDependency => n.name == dep.dependency
  | .ProviderDependency => n.provider == dep.dependency

/-- The scope a declared dependency is resolved in: the node's parents for
a `Parent`-located dependency, the peers within the same parent for a
`Peer`-located dependency (spec §4.4, `DecoratorDefinition.ts`). -/
def dependencyScope (dep : IDecoratorDependency)
    (parents peers : List HandlerNodeInfo) : List HandlerNodeInfo :=
  match dep.location with
  | .Parent => parents
  | .Peer => peers

/-- Failure naming the missing dependency target (spec §4.4). -/
inductive DependencyResolutionError where
  | dependencyResolutionError : String → DependencyResolutionError
deriving DecidableEq, Repr

/-- Modelled from the spec: the Metadata & Dependency Linker's resolution of
one declared dependency (spec §4.4) — the Linker implementation is not part
of the provided sources: "For each node with declared dependencies (by name,
scoped to parent or to peers within the same parent), search the
appropriate scope; unresolved dependency is a `DependencyResolutionError`
naming the missing target." -/
def resolveDependency (dep : IDecoratorDependency)
    (parents peers : List HandlerNodeInfo) :
    Except DependencyResolutionError HandlerNodeInfo :=
  match (dependencyScope dep parents peers).find? (dependencySatisfied dep) with
  | some n => Except.ok n
  | none => Except.error (.dependencyResolutionError dep.dependency)

/-- Modelled from the spec: a linked method handler node as seen by the
Handler Assembler — the originating handler (method) name plus its
annotated HTTP verb and route (spec §4.5). -/
structure MethodHandlerNode where
  handlerName : String
  method : ApiMethod
  route : String
deriving DecidableEq, Repr

/-- The route-reduction grouping key of a handler: its (verb, route) pair
(spec §3 invariant, §4.5). -/
def routeReductionKey (h : MethodHandlerNode) : ApiMethod × String :=
  (h.method, h.route)

/-- Failure reported for an accidental duplicate (verb, route) pair: the
names of both offending handlers, the shared verb and the shared route
(spec §4.5, §7). -/
inductive DuplicateRouteError where
  | duplicateRouteError : String → String → ApiMethod → String → DuplicateRouteError
deriving DecidableEq, Repr

/-- First pair of distinct handler nodes sharing a (verb, route) key, in
source order, if any. -/
def findDuplicateRoute : List MethodHandlerNode → Option (MethodHandlerNode × MethodHandlerNode)
  | [] => none
  | h :: rest =>
    match rest.find? (fun h2 => routeReductionKey h2 == routeReductionKey h) with
    | some h2 => some (h, h2)
    | none => findDuplicateRoute rest

/-- Modelled from the spec: the Handler Assembler (spec §4.5) — the
Assembler implementation is not part of the provided sources (the
`printExtractionSummary` table printer in `CliCommand.ts` consumes its
output but is not the error report). It "detects accidental duplicate
(verb, route) pairs (same verb, same route, two different handlers) and
fails with `DuplicateRouteError` rather than silently picking one";
otherwise it groups the handlers by their route-reduction key. -/
def assembleDefinitions (handlers : List MethodHandlerNode) :
    Except DuplicateRouteError (List ((ApiMethod × String) × List MethodHandlerNode)) :=
  match findDuplicateRoute handlers with
  | some (h1, h2) =>
    Except.error (.duplicateRouteError h1.handlerName h2.handlerName h1.method h1.route)
  | none =>
    Except.ok ((handlers.map routeReductionKey).eraseDups.map
      (fun k => (k, handlers.filter (fun h => routeReductionKey h == k))))

/-- An `IApiDefinition` as stored by the runtime method decorators
(`ApiDefinition.ts` / `API.ts`): verb, route and the handler function (the
property descriptor's `value`, modelled by an identifier). -/
structure IApiDefinition where
  method : ApiMethod
  route : String
  handler : Nat
deriving DecidableEq, Repr

/-- From `API.ts`: `wrapApiMethod(method, route, descriptor)` builds the
`IApiDefinition` stored in metadata, with `handler: descriptor.value`. -/
def wrapApiMethod (method : ApiMethod) (route : String) (handler : Nat) : IApiDefinition :=
  { method := method, route := route, handler := handler }

/-- The `reflect-metadata` store of one class target: metadata values keyed
by metadata key only — the decorators in `API.ts` pass no property key to
`Reflect.defineMetadata`. -/
abbrev ClassMetadataStore := List (String × IApiDefinition)

/-- Semantics of `Reflect.defineMetadata(key, value, target)`: the value
replaces any previous value stored under the same key on the target. -/
def defineMetadata (key : String) (v : IApiDefinition) (store : ClassMetadataStore) :
    ClassMetadataStore :=
  (key, v) :: store.filter (fun e => e.fst ≠ key)

/-- Semantics of `Reflect.getMetadata(key, target)`. -/
def getMetadata (key : String) (store : ClassMetadataStore) : Option IApiDefinition :=
  (store.find? (fun e => e.fst == key)).map (fun e => e.snd)

/-- From `API.ts`: `ApiGetMethod(route)` stores
`wrapApiMethod(ApiMethod.GET, route, descriptor)` under the fixed metadata
key `'apimethod'` on the class target. -/
def ApiGetMethod (route : String) (handler : Nat) (store : ClassMetadataStore) :
    ClassMetadataStore :=
  defineMetadata "apimethod" (wrapApiMethod .GET route handler) store

/-- From `API.ts`: `ApiPostMethod(route)`, storing under the same fixed key
`'apimethod'` on the class target. -/
def ApiPostMethod (route : String) (handler : Nat) (store : ClassMetadataStore) :
    ClassMetadataStore :=
  defineMetadata "apimethod" (wrapApiMethod .POST route handler) store

/-- From `API.ts`: `ApiPutMethod(route)`, storing under the same fixed key
`'apimethod'` on the class target. -/
def ApiPutMethod (route : String) (handler : Nat) (store : ClassMetadataStore) :
    ClassMetadataStore :=
  defineMetadata "apimethod" (wrapApiMethod .PUT route handler) store

/-- From `API.ts`: `ApiDeleteMethod(route)`, storing under the same fixed
key `'apimethod'` on the class target. -/
def ApiDeleteMethod (route : String) (handler : Nat) (store : ClassMetadataStore) :
    ClassMetadataStore :=
  defineMetadata "apimethod" (wrapApiMethod .DELETE route handler) store

/-- One application of one of the four method decorators of `API.ts` to a
method of a class: the chosen verb, the route argument, and the decorated
method's handler function. -/
structure ApiMethodDecoratorUse where
  verb : ApiMethod
  route : String
  handler : Nat
deriving DecidableEq, Repr

/-- Applying one method-decorator use to the class target's metadata store,
dispatching to the four decorators of `API.ts`. -/
def applyApiMethodDecorator (u : ApiMethodDecoratorUse) (store : ClassMetadataStore) :
    ClassMetadataStore :=
  match u.verb with
  | .GET => ApiGetMethod u.route u.handler store
  | .POST => ApiPostMethod u.route u.handler store
  | .PUT => ApiPutMethod u.route u.handler store
  | .DELETE => ApiDeleteMethod u.route u.handler store

/-- The `IApiDefinition` a decorator use stores. -/
def decoratorDefinitionOf (u : ApiMethodDecoratorUse) : IApiDefinition :=
  wrapApiMethod u.verb u.route u.handler

/-- A property descriptor as mutated by `QueryParamDecorator`
(`QueryParams.ts`): the `writable`, `configurable` and `enumerable`
attributes. -/
structure PropertyDescriptor where
  writable : Bool
  configurable : Bool
  enumerable : Bool
deriving DecidableEq, Repr

/-- From `QueryParams.ts`: `export const queryParamDecoratorKey = 'queryParamDecorator'`. -/
def queryParamDecoratorKey : String := "queryParamDecorator"

/-- The per-property `reflect-metadata` store of the `QueryParams` class
target: values keyed by (metadata key, property key). -/
abbrev PropMetadataStore := List ((String × String) × IQueryParamDecoratorDefinition)

/-- Semantics of `Reflect.defineMetadata(key, value, target, propertyKey)`:
the value replaces any previous value stored under the same (key,
propertyKey) pair on the target. -/
def definePropMetadata (key propertyKey : String) (v : IQueryParamDecoratorDefinition)
    (store : PropMetadataStore) : PropMetadataStore :=
  ((key, propertyKey), v) :: store.filter (fun e => e.fst ≠ (key, propertyKey))

/-- Semantics of `Reflect.getMetadata(key, target, propertyKey)`. -/
def getPropMetadata (key propertyKey : String) (store : PropMetadataStore) :
    Option IQueryParamDecoratorDefinition :=
  (store.find? (fun e => e.fst == (key, propertyKey))).map (fun e => e.snd)

/-- State acted on by one application of `QueryParamDecorator` to a static
method of `QueryParams`: the class target's per-property metadata store and
the decorated property's descriptor. -/
structure QueryParamsDecorationState where
  metadata : PropMetadataStore
  descriptor : PropertyDescriptor
deriving DecidableEq, Repr

/-- From `QueryParams.ts`: `QueryParamDecorator(d)` sets
`descriptor.writable = false`, `descriptor.configurable = false` and stores
`d` under `queryParamDecoratorKey` for the decorated property on the
target. -/
def QueryParamDecorator (d : IQueryParamDecoratorDefinition) (propertyKey : String)
    (st : QueryParamsDecorationState) : QueryParamsDecorationState :=
  { descriptor := { st.descriptor with writable := false, configurable := false },
    metadata := definePropMetadata queryParamDecoratorKey propertyKey d st.metadata }

/-- From `QueryParams.ts`: `GetQueryParamDecorator(param)` reads the
metadata stored under `queryParamDecoratorKey` for property `param` on the
`QueryParams` target. -/
def GetQueryParamDecorator (param : String) (store : PropMetadataStore) :
    Option IQueryParamDecoratorDefinition :=
  getPropMetadata queryParamDecoratorKey param store

/-- Decimal digits of a natural number, most significant first — the
rendering JavaScript's number-to-string coercion performs for the
non-negative integer `attempt` counter in
`AzureFunctionGenerateCommand.runCommand`. -/
def decDigits (n : Nat) : List Nat :=
  if n < 10 then [n] else decDigits (n / 10) ++ [n % 10]
termination_by n
decreasing_by
  exact Nat.div_lt_self (by omega) (by omega)

/-- Value denoted by a most-significant-first decimal digit list. -/
def decVal (ds : List Nat) : Nat := ds.foldl (fun a d => a * 10 + d) 0

/-- Character of one decimal digit. -/
def digitChar (d : Nat) : Char := Char.ofNat (48 + d)

/-- Decimal string rendering of a natural number (JavaScript's
number-to-string coercion on non-negative integers). -/
def decRepr (n : Nat) : String := String.mk ((decDigits n).map digitChar)

/-- From `AzureFunctionGenerateCommand.runCommand`: the character class
`[-a-zA-Z0-9_]` of the sanitizing replacement
`route.replace(/[^-a-zA-Z0-9_]/g, '_')`. -/
def isRouteNameChar (c : Char) : Bool :=
  c = '-' || c = '_' || ('a' ≤ c && c ≤ 'z') || ('A' ≤ c && c ≤ 'Z') || ('0' ≤ c && c ≤ '9')

/-- From `AzureFunctionGenerateCommand.runCommand`: the base route name of a
route group — `route = route.startsWith('/') ? route.substr(1) : route`
followed by `route.replace(/[^-a-zA-Z0-9_]/g, '_')`. -/
def baseRouteName (route : String) : String :=
  let stripped := if route.startsWith "/" then route.drop 1 else route
  stripped.map (fun c => if isRouteNameChar c then c else '_')

/-- From `AzureFunctionGenerateCommand.runCommand`: the candidate name for a
given attempt count — the base name itself for attempt `0`, and
`baseRouteName + '_' + attempt` for the positive attempts produced by
`routeName = baseRouteName + '_' + ++attempt`. -/
def mkAttemptName (base : String) (attempt : Nat) : String :=
  if attempt = 0 then base else base ++ "_" ++ decRepr attempt

/-- From `AzureFunctionGenerateCommand.runCommand`: the collision loop
`while (routeNames.has(routeName)) { routeName = baseRouteName + '_' + ++attempt; }`,
with explicit fuel (the loop always exits within `taken.length + 1`
iterations). -/
def freshNameLoop (base : String) (taken : List String) : Nat → Nat → String
  | 0, attempt => mkAttemptName base attempt
  | fuel + 1, attempt =>
    if mkAttemptName base attempt ∈ taken then
      freshNameLoop base taken fuel (attempt + 1)
    else
      mkAttemptName base attempt

/-- The route name chosen for one route group given the names already in the
`routeNames` set (`AzureFunctionGenerateCommand.runCommand`). -/
def freshRouteName (base : String) (taken : List String) : String :=
  freshNameLoop base taken (taken.length + 1) 0

/-- From `AzureFunctionGenerateCommand.runCommand`: the output loop over the
reduced route groups — each group's route is given a function route name
that is fresh with respect to the accumulating `routeNames` set, which the
chosen name is then added to. -/
def assignRouteNames : List String → List String → List (String × String)
  | [], _ => []
  | route :: rest, taken =>
    let name := freshRouteName (baseRouteName route) taken
    (route, name) :: assignRouteNames rest (name :: taken)

/-- C2: for every self-referential object type (directly, as in `selfRefEnv`,
or transitively, as in `mutualRefEnv`), `resolve` terminates (it is a total
function, so each of the equalities below is a statement about its finite
result tree) and the result contains exactly one `recursive-reference` node,
emitted at the point of re-entry instead of a re-expansion of the ancestor
descriptor: on entry to a named type whose identity key is already in the
resolution context, `resolve` returns `recursiveReference` immediately. -/
theorem resolve_self_referential_single_recursive_reference :
    (∀ (env : TypeEnv) (ctx : List String) (n : String), n ∈ ctx →
      resolve env ctx (.named n) = .recursiveReference n) ∧
    resolve selfRefEnv [] (.named "ISelfRef")
      = .object "ISelfRef" [("next", true, .recursiveReference "ISelfRef"),
          ("value", false, .primitive .string)] ∧
    countRecRef (resolve selfRefEnv [] (.named "ISelfRef")) = 1 ∧
    countRecRef (resolve mutualRefEnv [] (.named "IA")) = 1 := by
  refine ⟨?_, ?_, ?_, ?_⟩
  · intro env ctx n h
    rw [resolve]
    rw [if_pos h]
  · simp [resolve, lookupDecl, selfRefEnv, List.attach, List.attachWith, List.find?]
  · simp [resolve, lookupDecl, selfRefEnv, List.attach, List.attachWith, List.find?,
      countRecRef, countRecRefFields]
  · simp [resolve, lookupDecl, mutualRefEnv, List.attach, List.attachWith, List.find?,
      countRecRef, countRecRefFields]

/-- Witness for C2: the re-entry clause evaluated at a concrete context. -/
theorem resolve_self_referential_single_recursive_reference_witness :
    resolve selfRefEnv ["ISelfRef"] (.named "ISelfRef") = .recursiveReference "ISelfRef" :=
  resolve_self_referential_single_recursive_reference.1 selfRefEnv ["ISelfRef"] "ISelfRef"
    (by decide)

/-- C3: memoization of generic instantiations is keyed by the base identity
plus the full type-argument tuple, not by the base name alone. For two
distinct argument tuples neither resolution is served from the other's
cache entry: both are computed fresh from the base shape and the cache ends
up holding two separate object-shaped descriptors under the two keys, while
resolving the same identity with the same tuple again is a cache hit
returning exactly the cache-shared descriptor with the cache unchanged.
For the repository's own parameterized test shape
`IResponse<P> { response: P }` the two instantiations are moreover
structurally distinct object shapes sharing the base name. -/
theorem resolveGeneric_memoized_by_type_argument_tuple :
    (∀ (shape : GenericShape) (args1 args2 : List TypeDescriptor) (cache : DescriptorCache),
      args1 ≠ args2 →
      lookupCache cache (shape.name, args1) = none →
      lookupCache cache (shape.name, args2) = none →
      (resolveGeneric shape args1 cache).cacheHit = false ∧
      (resolveGeneric shape args2 (resolveGeneric shape args1 cache).cache).cacheHit = false ∧
      (resolveGeneric shape args1 cache).descriptor = instantiateGeneric shape args1 ∧
      (resolveGeneric shape args2 (resolveGeneric shape args1 cache).cache).descriptor
        = instantiateGeneric shape args2 ∧
      isObjectShaped (resolveGeneric shape args1 cache).descriptor = true ∧
      isObjectShaped
        (resolveGeneric shape args2 (resolveGeneric shape args1 cache).cache).descriptor
        = true ∧
      (let c2 := (resolveGeneric shape args2 (resolveGeneric shape args1 cache).cache).cache
       lookupCache c2 (shape.name, args1) = some (instantiateGeneric shape args1) ∧
       lookupCache c2 (shape.name, args2) = some (instantiateGeneric shape args2) ∧
       (resolveGeneric shape args1 c2).cacheHit = true ∧
       (resolveGeneric shape args1 c2).descriptor = instantiateGeneric shape args1 ∧
       (resolveGeneric shape args1 c2).cache = c2)) ∧
    instantiateGeneric iresponseShape [iresponseBodyDesc]
      ≠ instantiateGeneric iresponseShape [.primitive .string] ∧
    isObjectShaped (instantiateGeneric iresponseShape [iresponseBodyDesc]) = true ∧
    isObjectShaped (instantiateGeneric iresponseShape [.primitive .string]) = true := by
  refine ⟨?_, by decide, by decide, by decide⟩
  intro shape args1 args2 cache hne h1 h2
  have hkeys : (shape.name, args1) ≠ (shape.name, args2) := by
    intro hc
    exact hne (congrArg Prod.snd hc)
  have hkeys' : (shape.name, args2) ≠ (shape.name, args1) := fun hc => hkeys hc.symm
  have hr1 : resolveGeneric shape args1 cache
      = ⟨instantiateGeneric shape args1,
         ((shape.name, args1), instantiateGeneric shape args1) :: cache, false⟩ := by
    simp [resolveGeneric, h1]
  have hl2 : lookupCache (((shape.name, args1), instantiateGeneric shape args1) :: cache)
      (shape.name, args2) = none := by
    simp [lookupCache, hkeys, h2]
  have hr2 : resolveGeneric shape args2 (resolveGeneric shape args1 cache).cache
      = ⟨instantiateGeneric shape args2,
         ((shape.name, args2), instantiateGeneric shape args2)
           :: ((shape.name, args1), instantiateGeneric shape args1) :: cache, false⟩ := by
    rw [hr1]
    simp [resolveGeneric, hl2]
  refine ⟨by rw [hr1], by rw [hr2], by rw [hr1], by rw [hr2], ?_, ?_, ?_, ?_, ?_, ?_, ?_⟩
  · rw [hr1]; simp [instantiateGeneric, isObjectShaped]
  · rw [hr2]; simp [instantiateGeneric, isObjectShaped]
  · rw [hr2]
    simp [lookupCache, hkeys']
  · rw [hr2]
    simp [lookupCache]
  · rw [hr2]
    simp [resolveGeneric, lookupCache, hkeys']
  · rw [hr2]
    simp [resolveGeneric, lookupCache, hkeys']
  · rw [hr2]
    simp [resolveGeneric, lookupCache, hkeys']

/-- Witness for C3: the memoization clause evaluated at the repository's
`IResponse<P>` shape with the tuples `[IResponseBody]` and `[string]` on an
empty cache. -/
theorem resolveGeneric_memoized_by_type_argument_tuple_witness :
    (resolveGeneric iresponseShape [iresponseBodyDesc] []).cacheHit = false ∧
    (resolveGeneric iresponseShape [.primitive .string]
      (resolveGeneric iresponseShape [iresponseBodyDesc] []).cache).cacheHit = false ∧
    (resolveGeneric iresponseShape [iresponseBodyDesc] []).descriptor
      = instantiateGeneric iresponseShape [iresponseBodyDesc] ∧
    (resolveGeneric iresponseShape [.primitive .string]
      (resolveGeneric iresponseShape [iresponseBodyDesc] []).cache).descriptor
      = instantiateGeneric iresponseShape [.primitive .string] ∧
    isObjectShaped (resolveGeneric iresponseShape [iresponseBodyDesc] []).descriptor = true ∧
    isObjectShaped (resolveGeneric iresponseShape [.primitive .string]
      (resolveGeneric iresponseShape [iresponseBodyDesc] []).cache).descriptor = true ∧
    (let c2 := (resolveGeneric iresponseShape [.primitive .string]
        (resolveGeneric iresponseShape [iresponseBodyDesc] []).cache).cache
     lookupCache c2 (iresponseShape.name, [iresponseBodyDesc])
       = some (instantiateGeneric iresponseShape [iresponseBodyDesc]) ∧
     lookupCache c2 (iresponseShape.name, [.primitive .string])
       = some (instantiateGeneric iresponseShape [.primitive .string]) ∧
     (resolveGeneric iresponseShape [iresponseBodyDesc] c2).cacheHit = true ∧
     (resolveGeneric iresponseShape [iresponseBodyDesc] c2).descriptor
       = instantiateGeneric iresponseShape [iresponseBodyDesc] ∧
     (resolveGeneric iresponseShape [iresponseBodyDesc] c2).cache = c2) :=
  resolveGeneric_memoized_by_type_argument_tuple.1 iresponseShape
    [iresponseBodyDesc] [.primitive .string] [] (by decide) (by decide) (by decide)

/-- C4: when a parameter annotation declares type restrictions and the
parameter's resolved descriptor matches none of them, the check fails with
a `TypeRestrictionError` naming the declaration; in particular the
`ApiQueryParam` decorator of `QueryParams.ts`, restricted to
`['string', 'number', 'date']`, applied to a parameter resolved as
`boolean` yields a `TypeRestrictionError` naming that parameter. -/
theorem type_restriction_error_on_unmatched_parameter :
    (∀ (paramName : String) (rs : List String) (resolved : TypeDescriptor),
      (∀ r ∈ rs, descriptorTypeName resolved ≠ r) →
      validateParameterTypeRestrictions paramName (some rs) resolved
        = Except.error (.typeRestrictionError paramName)) ∧
    validateParameterTypeRestrictions "times" (some apiQueryParamDef.allowableTypes)
        (.primitive .boolean)
      = Except.error (.typeRestrictionError "times") := by
  constructor
  · intro paramName rs resolved h
    have hany : rs.any (fun r => r == descriptorTypeName resolved) = false := by
      rw [List.any_eq_false]
      intro r hr
      simp only [beq_iff_eq]
      exact fun hc => h r hr hc.symm
    simp [validateParameterTypeRestrictions, hany]
  · rfl

/-- Witness for C4: the restriction check of the general clause evaluated at
the `ApiQueryParam` decorator's `allowableTypes` and a boolean parameter. -/
theorem type_restriction_error_on_unmatched_parameter_witness :
    validateParameterTypeRestrictions "name" (some ["string", "number", "date"])
        (.primitive .boolean)
      = Except.error (.typeRestrictionError "name") :=
  type_restriction_error_on_unmatched_parameter.1 "name" ["string", "number", "date"]
    (.primitive .boolean) (by decide)

/-- C5: extracting the scenario class with the single method annotated GET
`/hello` (required string query parameter `name`, number query parameter
`times` with default value `1`) produces exactly one
`ExtractedApiDefinition`, with verb GET, route `/hello`, and the parameter
bindings in declaration order: `name` required with no default, then
`times` optional with default `1`. In general a parameter is optional
exactly when its declaration carries an optional marker or a default
value. -/
theorem extract_hello_scenario_definition :
    extractClassMethods [] [greetMethodDecl]
      = [{ method := .GET,
           route := "/hello",
           parameters := [
             { name := "name", binding := .Query, descriptor := .primitive .string,
               isOptional := false, defaultValue := none },
             { name := "times", binding := .Query, descriptor := .primitive .number,
               isOptional := true, defaultValue := some (.numberValue 1) }],
           returnType := .primitive .string }] ∧
    ∀ p : ParamDecl, isOptionalParam p = (p.optionalMarker || p.defaultValue.isSome) := by
  constructor
  · simp [extractClassMethods, extractApiMethod, extractParameter, greetMethodDecl,
      isOptionalParam, resolve]
  · intro p
    rfl

/-- C6: partial-failure semantics of the Declaration Walker — for every
processing function and every list of declarations, the walk extracts
exactly the successful declarations (in order) and records exactly the
diagnostics of the failing ones (in order), so one failing declaration
never aborts extraction of the remaining declarations; and the overall
compilation result reports success if and only if the diagnostic list is
empty. The concrete clauses run the scenario of one failing declaration
among two independently valid ones. -/
theorem walker_partial_failure_semantics :
    (∀ {δ α β : Type} (process : δ → Except β α) (decls : List δ),
      (walkDeclarations process decls).extracted
        = decls.filterMap (fun d => (process d).toOption) ∧
      (walkDeclarations process decls).diagnostics
        = decls.filterMap (fun d => extractionDiagnosticPart (process d)) ∧
      (compilationSucceeded (walkDeclarations process decls) = true ↔
        (walkDeclarations process decls).diagnostics = [])) ∧
    (walkDeclarations
        (fun d : Nat => if d = 2 then Except.error "missing peer" else Except.ok d)
        [1, 2, 3]).extracted = [1, 3] ∧
    (walkDeclarations
        (fun d : Nat => if d = 2 then Except.error "missing peer" else Except.ok d)
        [1, 2, 3]).diagnostics = ["missing peer"] ∧
    compilationSucceeded (walkDeclarations
        (fun d : Nat => if d = 2 then Except.error "missing peer" else Except.ok d)
        [1, 2, 3]) = false := by
  refine ⟨?_, by decide, by decide, by decide⟩
  intro δ α β process decls
  induction decls with
  | nil =>
    refine ⟨rfl, rfl, ?_⟩
    simp [walkDeclarations, compilationSucceeded]
  | cons d rest ih =>
    rcases ih with ⟨ih1, ih2, _⟩
    rcases hp : process d with e | a
    · refine ⟨?_, ?_, ?_⟩
      · simp [walkDeclarations, hp, ih1, Except.toOption]
      · simp [walkDeclarations, hp, ih2, extractionDiagnosticPart]
      · simp [walkDeclarations, hp, compilationSucceeded]
    · refine ⟨?_, ?_, ?_⟩
      · simp [walkDeclarations, hp, ih1, Except.toOption]
      · simp [walkDeclarations, hp, ih2, extractionDiagnosticPart]
      · simp [walkDeclarations, hp, compilationSucceeded,
          List.isEmpty_iff]

/-- C7: the dependency linker searches only the declared scope — for a
`Parent`-located dependency the result is independent of the peer list and
for a `Peer`-located dependency it is independent of the parent list; a
successfully resolved dependency is a node of the declared scope satisfying
the declaration; and when no node in the declared scope satisfies the
dependency, resolution fails with a `DependencyResolutionError` naming the
missing target. -/
theorem linker_unresolved_dependency_error :
    ∀ (dep : IDecoratorDependency) (parents peers : List HandlerNodeInfo),
      (dep.location = .Parent →
        ∀ peers', resolveDependency dep parents peers = resolveDependency dep parents peers') ∧
      (dep.location = .Peer →
        ∀ parents', resolveDependency dep parents peers = resolveDependency dep parents' peers) ∧
      (∀ n, resolveDependency dep parents peers = Except.ok n →
        n ∈ dependencyScope dep parents peers ∧ dependencySatisfied dep n = true) ∧
      ((∀ n ∈ dependencyScope dep parents peers, dependencySatisfied dep n = false) →
        resolveDependency dep parents peers
          = Except.error (.dependencyResolutionError dep.dependency)) := by
  intro dep parents peers
  refine ⟨?_, ?_, ?_, ?_⟩
  · intro hloc peers'
    simp [resolveDependency, dependencyScope, hloc]
  · intro hloc parents'
    simp [resolveDependency, dependencyScope, hloc]
  · intro n hok
    rw [resolveDependency] at hok
    rcases hfind : (dependencyScope dep parents peers).find? (dependencySatisfied dep)
      with _ | m
    · rw [hfind] at hok
      cases hok
    · rw [hfind] at hok
      cases hok
      exact ⟨List.mem_of_find?_eq_some hfind, List.find?_some hfind⟩
  · intro hnone
    have hfind : (dependencyScope dep parents peers).find? (dependencySatisfied dep)
        = none := by
      rw [List.find?_eq_none]
      intro n hn
      rw [hnone n hn]
      exact Bool.false_ne_true
    simp [resolveDependency, hfind]

/-- Witness for C7: a peer-scoped name dependency on a missing peer yields
the `DependencyResolutionError` naming the missing target. -/
theorem linker_unresolved_dependency_error_witness :
    resolveDependency ⟨.NameDependency, "missingPeer", .Peer⟩
        [⟨"parentNode", "providerA"⟩] [⟨"peerNode", "providerB"⟩]
      = Except.error (.dependencyResolutionError "missingPeer") :=
  (linker_unresolved_dependency_error ⟨.NameDependency, "missingPeer", .Peer⟩
    [⟨"parentNode", "providerA"⟩] [⟨"peerNode", "providerB"⟩]).2.2.2 (by decide)

/-- When the (verb, route) keys of a handler list are not pairwise distinct,
`findDuplicateRoute` finds a pair of handlers at two distinct positions
sharing a key. -/
theorem findDuplicateRoute_of_duplicate_key :
    ∀ (handlers : List MethodHandlerNode),
    ¬ (handlers.map routeReductionKey).Nodup →
    ∃ h1 h2 pre suf,
      handlers = pre ++ h1 :: suf ∧ h2 ∈ suf ∧
      routeReductionKey h1 = routeReductionKey h2 ∧
      findDuplicateRoute handlers = some (h1, h2) := by
  intro handlers
  induction handlers with
  | nil => intro hdup; simp at hdup
  | cons h rest ih =>
    intro hdup
    rcases hfind : rest.find? (fun h2 => routeReductionKey h2 == routeReductionKey h)
      with _ | h2
    · have hnotin : routeReductionKey h ∉ rest.map routeReductionKey := by
        intro hc
        rcases List.mem_map.mp hc with ⟨m, hm, hkey⟩
        have := List.find?_eq_none.mp hfind m hm
        simp [hkey] at this
      have hdup' : ¬ (rest.map routeReductionKey).Nodup := by
        intro hc
        exact hdup (by simpa [List.nodup_cons] using And.intro hnotin hc)
      rcases ih hdup' with ⟨h1, h2, pre, suf, heq, hmem, hkey, hfd⟩
      refine ⟨h1, h2, h :: pre, suf, by rw [heq]; rfl, hmem, hkey, ?_⟩
      rw [findDuplicateRoute, hfind, heq] at *
      rw [← heq]
      exact hfd
    · have hkey : routeReductionKey h2 = routeReductionKey h := by
        have := List.find?_some hfind
        simpa using this
      refine ⟨h, h2, [], rest, rfl, List.mem_of_find?_eq_some hfind, hkey.symm, ?_⟩
      rw [findDuplicateRoute, hfind]

/-- C1: when two distinct otherwise-valid method handlers share the same
HTTP verb and route string, the assembler reports a `DuplicateRouteError`
naming both handlers together with the shared verb and route — the
duplicate pair is rejected rather than silently merged into the grouped
output, and neither handler is dropped from the error report. -/
theorem assembler_duplicate_route_error_names_both :
    ∀ (handlers : List MethodHandlerNode),
    ¬ (handlers.map routeReductionKey).Nodup →
    ∃ h1 h2 pre suf,
      handlers = pre ++ h1 :: suf ∧ h2 ∈ suf ∧
      h1.method = h2.method ∧ h1.route = h2.route ∧
      assembleDefinitions handlers
        = Except.error
            (.duplicateRouteError h1.handlerName h2.handlerName h1.method h1.route) := by
  intro handlers hdup
  rcases findDuplicateRoute_of_duplicate_key handlers hdup with
    ⟨h1, h2, pre, suf, heq, hmem, hkey, hfd⟩
  have hm : h1.method = h2.method := congrArg Prod.fst hkey
  have hr : h1.route = h2.route := congrArg Prod.snd hkey
  refine ⟨h1, h2, pre, suf, heq, hmem, hm, hr, ?_⟩
  rw [assembleDefinitions, hfd]

/-- Witness for C1: two distinct handlers annotated GET `/hello` yield the
`DuplicateRouteError` naming both of them. -/
theorem assembler_duplicate_route_error_names_both_witness :
    ¬ (([⟨"greetA", .GET, "/hello"⟩, ⟨"greetB", .GET, "/hello"⟩] :
        List MethodHandlerNode).map routeReductionKey).Nodup ∧
    ∃ h1 h2 pre suf,
      ([⟨"greetA", .GET, "/hello"⟩, ⟨"greetB", .GET, "/hello"⟩] :
        List MethodHandlerNode) = pre ++ h1 :: suf ∧ h2 ∈ suf ∧
      h1.method = h2.method ∧ h1.route = h2.route ∧
      assembleDefinitions [⟨"greetA", .GET, "/hello"⟩, ⟨"greetB", .GET, "/hello"⟩]
        = Except.error
            (.duplicateRouteError h1.handlerName h2.handlerName h1.method h1.route) :=
  ⟨by decide,
   assembler_duplicate_route_error_names_both
     [⟨"greetA", .GET, "/hello"⟩, ⟨"greetB", .GET, "/hello"⟩] (by decide)⟩

/-- Every method-decorator use of `API.ts` writes through `defineMetadata`
with the single fixed key `'apimethod'` on the class target. -/
theorem applyApiMethodDecorator_eq (u : ApiMethodDecoratorUse) (store : ClassMetadataStore) :
    applyApiMethodDecorator u store
      = defineMetadata "apimethod" (decoratorDefinitionOf u) store := by
  rcases u with ⟨v, r, h⟩
  cases v <;> rfl

/-- Entries with a given key that survive a `defineMetadata` under that key:
exactly the newly stored value. -/
theorem defineMetadata_filter_eq (key : String) (v : IApiDefinition)
    (store : ClassMetadataStore) :
    (defineMetadata key v store).filter (fun e => e.fst == key) = [(key, v)] := by
  have htail : (store.filter (fun e => e.fst ≠ key)).filter (fun e => e.fst == key) = [] := by
    rw [List.filter_eq_nil_iff]
    intro e he
    have hne : e.fst ≠ key := by
      have := List.of_mem_filter he
      simpa using this
    simp [hne]
  simp only [defineMetadata, List.filter_cons]
  simp only [beq_self_eq_true, if_true, reduceIte]
  rw [htail]

/-- C8: for any two applications of the `API.ts` method decorators
(`ApiGetMethod`/`ApiPostMethod`/`ApiPutMethod`/`ApiDeleteMethod`) to methods
of the same class, both store their `IApiDefinition` under the single fixed
metadata key `'apimethod'` on the class target (no per-property key), so
the later-applied decorator's definition overwrites the earlier one:
reading `'apimethod'` back retrieves the later definition, and the store
retains exactly one entry under that key. -/
theorem apimethod_metadata_overwritten_by_later_decorator :
    ∀ (u1 u2 : ApiMethodDecoratorUse) (store : ClassMetadataStore),
      getMetadata "apimethod" (applyApiMethodDecorator u2 (applyApiMethodDecorator u1 store))
        = some (decoratorDefinitionOf u2) ∧
      ((applyApiMethodDecorator u2 (applyApiMethodDecorator u1 store)).filter
          (fun e => e.fst == "apimethod")).map (fun e => e.snd)
        = [decoratorDefinitionOf u2] := by
  intro u1 u2 store
  rw [applyApiMethodDecorator_eq, applyApiMethodDecorator_eq]
  constructor
  · simp [getMetadata, defineMetadata, List.find?]
  · rw [defineMetadata_filter_eq]
    rfl

/-- C9: the query-parameter decorator round-trip of `QueryParams.ts` — for
every decorator definition `d` registered via `QueryParamDecorator` on a
static method of `QueryParams`, `GetQueryParamDecorator` of that method's
name returns exactly `d`, and after registration the decorated property
descriptor has `writable = false` and `configurable = false`. -/
theorem queryparam_decorator_roundtrip_and_descriptor_frozen :
    ∀ (d : IQueryParamDecoratorDefinition) (propertyKey : String)
      (st : QueryParamsDecorationState),
      GetQueryParamDecorator propertyKey (QueryParamDecorator d propertyKey st).metadata
        = some d ∧
      (QueryParamDecorator d propertyKey st).descriptor.writable = false ∧
      (QueryParamDecorator d propertyKey st).descriptor.configurable = false := by
  intro d propertyKey st
  refine ⟨?_, rfl, rfl⟩
  simp [GetQueryParamDecorator, getPropMetadata, QueryParamDecorator, definePropMetadata,
    queryParamDecoratorKey, List.find?]

/-- Appending a digit multiplies the denoted value by ten and adds it. -/
theorem decVal_append (ds : List Nat) (d : Nat) :
    decVal (ds ++ [d]) = decVal ds * 10 + d := by
  simp [decVal, List.foldl_append]

/-- The decimal digit list denotes the number it was produced from. -/
theorem decVal_decDigits (n : Nat) : decVal (decDigits n) = n := by
  induction n using decDigits.induct with
  | case1 n h => rw [decDigits]; simp [h, decVal]
  | case2 n h ih =>
    rw [decDigits]
    simp only [h, if_false, decVal_append, ih]
    omega

/-- Decimal digit lists of distinct numbers are distinct. -/
theorem decDigits_injective : Function.Injective decDigits := by
  intro a b h
  have := decVal_decDigits a
  rw [h, decVal_decDigits] at this
  omega

/-- Every produced decimal digit is below ten. -/
theorem decDigits_lt (n : Nat) : ∀ d ∈ decDigits n, d < 10 := by
  induction n using decDigits.induct with
  | case1 n h => rw [decDigits]; simp [h]
  | case2 n h ih =>
    rw [decDigits]
    simp only [h, if_false]
    intro d hd
    rcases List.mem_append.mp hd with h1 | h2
    · exact ih d h1
    · simp at h2; omega

/-- Digit characters of distinct digits are distinct. -/
theorem digitChar_inj_lt {a b : Nat} (ha : a < 10) (hb : b < 10)
    (h : digitChar a = digitChar b) : a = b := by
  interval_cases a <;> interval_cases b <;> first | rfl | (exfalso; revert h; decide)

/-- Mapping `digitChar` over digit lists is injective. -/
theorem map_digitChar_inj : ∀ (xs ys : List Nat), (∀ d ∈ xs, d < 10) → (∀ d ∈ ys, d < 10) →
    xs.map digitChar = ys.map digitChar → xs = ys := by
  intro xs
  induction xs with
  | nil =>
    intro ys _ _ hdata
    cases ys with
    | nil => rfl
    | cons y ys => simp at hdata
  | cons x xs ih =>
    intro ys ha hb hdata
    cases ys with
    | nil => simp at hdata
    | cons y ys =>
      simp only [List.map_cons, List.cons.injEq] at hdata
      have hx : x = y := digitChar_inj_lt (ha x (by simp)) (hb y (by simp)) hdata.1
      have hrest : xs = ys := ih ys (fun d hd => ha d (List.mem_cons_of_mem x hd))
        (fun d hd => hb d (List.mem_cons_of_mem y hd)) hdata.2
      rw [hx, hrest]

/-- Decimal string renderings of distinct numbers are distinct. -/
theorem decRepr_injective : Function.Injective decRepr := by
  intro a b h
  apply decDigits_injective
  have hdata : (decDigits a).map digitChar = (decDigits b).map digitChar :=
    congrArg String.data h
  exact map_digitChar_inj _ _ (decDigits_lt a) (decDigits_lt b) hdata

/-- A decimal rendering is never the empty string. -/
theorem decRepr_length_pos (n : Nat) : 0 < (decRepr n).length := by
  simp only [decRepr, String.length]
  rw [decDigits]
  split <;> simp

/-- Length of a positive-attempt candidate name. -/
theorem mkAttemptName_length (base : String) (j : Nat) (hj : j ≠ 0) :
    (mkAttemptName base j).length = base.length + 1 + (decRepr j).length := by
  simp only [mkAttemptName, hj, if_false, reduceIte, String.length_append]
  rfl

/-- Candidate names for distinct attempt counts are distinct. -/
theorem mkAttemptName_inj (base : String) : Function.Injective (mkAttemptName base) := by
  intro i j h
  by_cases hi : i = 0
  · by_cases hj : j = 0
    · rw [hi, hj]
    · exfalso
      have hl := congrArg String.length h
      rw [mkAttemptName_length base j hj] at hl
      simp only [mkAttemptName, hi, if_true, reduceIte] at hl
      have := decRepr_length_pos j
      omega
  · by_cases hj : j = 0
    · exfalso
      have hl := congrArg String.length h
      rw [mkAttemptName_length base i hi] at hl
      simp only [mkAttemptName, hj, if_true, reduceIte] at hl
      have := decRepr_length_pos i
      omega
    · simp only [mkAttemptName, hi, hj, if_false, reduceIte] at h
      have hdata := congrArg String.data h
      simp only [String.data_append] at hdata
      have hcancel := List.append_cancel_left hdata
      exact decRepr_injective (congrArg String.mk hcancel)

/-- If some attempt within the fuel budget is free, the collision loop
returns a name outside the taken set. -/
theorem freshNameLoop_spec (base : String) (taken : List String) :
    ∀ (fuel attempt : Nat),
    (∃ j, attempt ≤ j ∧ j ≤ attempt + fuel ∧ mkAttemptName base j ∉ taken) →
    freshNameLoop base taken fuel attempt ∉ taken := by
  intro fuel
  induction fuel with
  | zero =>
    intro attempt ⟨j, hj1, hj2, hj3⟩
    have : j = attempt := by omega
    subst this
    simpa [freshNameLoop] using hj3
  | succ fuel ih =>
    intro attempt ⟨j, hj1, hj2, hj3⟩
    rw [freshNameLoop]
    by_cases hmem : mkAttemptName base attempt ∈ taken
    · simp only [hmem, if_true, reduceIte]
      apply ih
      refine ⟨j, ?_, by omega, hj3⟩
      rcases Nat.eq_or_lt_of_le hj1 with heq | hlt
      · exfalso; rw [heq] at hmem; exact hj3 hmem
      · omega
    · rw [if_neg hmem]
      exact hmem

/-- Pigeonhole: among the first `taken.length + 1` positive attempts, some
candidate name is not taken. -/
theorem exists_fresh_attempt (base : String) (taken : List String) :
    ∃ j, 1 ≤ j ∧ j ≤ taken.length + 1 ∧ mkAttemptName base j ∉ taken := by
  by_contra hcon
  push_neg at hcon
  set L := (List.range (taken.length + 1)).map (fun i => mkAttemptName base (i + 1)) with hL
  have hnodup : L.Nodup := by
    apply List.Nodup.map
    · intro a b hab
      have := mkAttemptName_inj base hab
      omega
    · exact List.nodup_range _
  have hsub : ∀ x ∈ L, x ∈ taken := by
    intro x hx
    rw [hL] at hx
    rcases List.mem_map.mp hx with ⟨i, hi, hxi⟩
    rw [List.mem_range] at hi
    rw [← hxi]
    by_contra hnot
    exact hnot (hcon (i + 1) (by omega) (by omega))
  have h1 : L.toFinset.card = L.length := List.toFinset_card_of_nodup hnodup
  have h2 : L.toFinset ⊆ taken.toFinset := by
    intro x hx
    exact List.mem_toFinset.mpr (hsub x (List.mem_toFinset.mp hx))
  have h3 : taken.toFinset.card ≤ taken.length := List.toFinset_card_le taken
  have h4 : L.length = taken.length + 1 := by simp [hL]
  have := Finset.card_le_card h2
  omega

/-- The chosen route name is fresh with respect to the taken set. -/
theorem freshRouteName_not_mem (base : String) (taken : List String) :
    freshRouteName base taken ∉ taken := by
  apply freshNameLoop_spec
  rcases exists_fresh_attempt base taken with ⟨j, hj1, hj2, hj3⟩
  exact ⟨j, by omega, by omega, hj3⟩

/-- The collision loop only ever returns candidate names: the base name
itself or the base name with a numeric `_k` suffix. -/
theorem freshNameLoop_is_attempt (base : String) (taken : List String) :
    ∀ (fuel attempt : Nat), ∃ k, freshNameLoop base taken fuel attempt = mkAttemptName base k := by
  intro fuel
  induction fuel with
  | zero => intro attempt; exact ⟨attempt, rfl⟩
  | succ fuel ih =>
    intro attempt
    rw [freshNameLoop]
    by_cases hmem : mkAttemptName base attempt ∈ taken
    · rw [if_pos hmem]
      exact ih (attempt + 1)
    · rw [if_neg hmem]
      exact ⟨attempt, rfl⟩

/-- Invariant of the output loop: the names produced from any starting
taken set are pairwise distinct, avoid that set, pair up with the input
routes in order, and each is a candidate name derived from its route's
sanitized base name. -/
theorem assignRouteNames_aux :
    ∀ (routes taken : List String),
      ((assignRouteNames routes taken).map Prod.snd).Nodup ∧
      (∀ x ∈ (assignRouteNames routes taken).map Prod.snd, x ∉ taken) ∧
      (assignRouteNames routes taken).map Prod.fst = routes ∧
      (∀ pair ∈ assignRouteNames routes taken,
        ∃ k, pair.snd = mkAttemptName (baseRouteName pair.fst) k) := by
  intro routes
  induction routes with
  | nil => intro taken; simp [assignRouteNames]
  | cons route rest ih =>
    intro taken
    rcases ih (freshRouteName (baseRouteName route) taken :: taken) with
      ⟨hnodup, hnotin, hfst, hder⟩
    refine ⟨?_, ?_, ?_, ?_⟩
    · rw [assignRouteNames]
      simp only [List.map_cons, List.nodup_cons]
      refine ⟨?_, hnodup⟩
      intro hmem
      exact hnotin _ hmem (List.mem_cons_self _ _)
    · intro x hx
      rw [assignRouteNames] at hx
      simp only [List.map_cons, List.mem_cons] at hx
      rcases hx with hx | hx
      · rw [hx]; exact freshRouteName_not_mem _ _
      · intro hcon
        exact hnotin x hx (List.mem_cons_of_mem _ hcon)
    · rw [assignRouteNames]
      simp only [List.map_cons, hfst]
    · intro pair hpair
      rw [assignRouteNames] at hpair
      rcases List.mem_cons.mp hpair with hp | hp
      · rw [hp]
        exact freshNameLoop_is_attempt (baseRouteName route) taken _ 0
      · exact hder pair hp

/-- C10: every generated function route name of
`AzureFunctionGenerateCommand.runCommand` is unique within one run — the
names assigned to the route groups are pairwise distinct, one name per
group in order, and each name is derived from its group's route by
stripping a leading `/`, replacing every character outside `[-a-zA-Z0-9_]`
with `_`, and, on collision with an earlier name, appending the numeric
suffixes `_1`, `_2`, … produced by the retry loop. -/
theorem azure_function_route_names_unique :
    ∀ (routes : List String),
      ((assignRouteNames routes []).map Prod.snd).Nodup ∧
      (assignRouteNames routes []).map Prod.fst = routes ∧
      (∀ pair ∈ assignRouteNames routes [],
        ∃ k, pair.snd = mkAttemptName (baseRouteName pair.fst) k) := by
  intro routes
  rcases assignRouteNames_aux routes [] with ⟨h1, _, h3, h4⟩
  exact ⟨h1, h3, h4⟩
